import Mathlib

/-!
Verification of the OpenAI reverse proxy (`main.go`).

This file gives a shallow embedding of the request/response pipeline of the
proxy: the prompt rewriter (`modifyRequestBody`), the streaming response
writer (`streamResponseWriter.Write`), the buffered relay
(`handleNonStreamRequest` with `responseBodyWriter`), the `Authorization`
override in the proxy director, and the streaming/buffered classification in
`handleProxy`.  Byte slices are modelled as `List Char` / `String` (exact for
the valid-UTF-8 data the proxy handles, since UTF-8 is self-synchronizing all
byte-level scans used by the code coincide with character-level scans).

The Go standard-library functions the code calls (`strings.ReplaceAll`,
`strings.Contains`, `bytes.Split`, `bytes.TrimSpace`, `bytes.TrimPrefix`,
`json.Unmarshal` into `map[string]interface{}` and `json.Marshal`) are
embedded below with their documented semantics.  JSON numbers are modelled as
exact decimals `m * 10 ^ e`; this matches Go's float64-based behaviour for
all decimal literals in the non-exponential printing range and ignores
float64 rounding of extreme magnitudes, which no theorem below depends on.
-/

/-! ## Go `strings` / `bytes` primitives -/

/-- The character `{` (written via its code point). -/
def lbraceChar : Char := Char.ofNat 123

/-- The character `}` (written via its code point). -/
def rbraceChar : Char := Char.ofNat 125

/-- `unicode.IsSpace` restricted to the code points `bytes.TrimSpace` can see
in a Latin-1/ASCII stream: `\t \n \v \f \r space U+0085 U+00A0`. -/
def goIsSpace (c : Char) : Bool :=
  c = ' ' || c = '\t' || c = '\n' || c = Char.ofNat 0x0B || c = Char.ofNat 0x0C ||
  c = '\r' || c = Char.ofNat 0x85 || c = Char.ofNat 0xA0

/-- `bytes.TrimSpace`: drop whitespace from both ends. -/
def goTrimSpace (l : List Char) : List Char :=
  ((l.dropWhile goIsSpace).reverse.dropWhile goIsSpace).reverse

/-- `strings.Contains` / `bytes.Contains`: does `pat` occur in `s`?
Go returns `true` for the empty pattern. -/
def hasSubstr (s pat : List Char) : Bool :=
  match s with
  | [] => pat.isEmpty
  | c :: rest => pat.isPrefixOf (c :: rest) || hasSubstr rest pat

/-- `strings.Contains` on strings. -/
def strContains (s pat : String) : Bool := hasSubstr s.data pat.data

/-- Core scan of `strings.Replace(s, old, new, -1)` for a non-empty `old`:
left-to-right, non-overlapping; on a match emit `new` and skip `old.length`
characters, otherwise keep one character and continue.  `fuel ≥ s.length`
makes the recursion structural without changing the result. -/
def replCore : Nat → List Char → List Char → List Char → List Char
  | 0, s, _, _ => s
  | fuel + 1, s, old, new =>
    match s with
    | [] => []
    | c :: rest =>
      if old.isPrefixOf (c :: rest) then
        new ++ replCore fuel ((c :: rest).drop old.length) old new
      else
        c :: replCore fuel rest old new

/-- `strings.ReplaceAll s old new`.  For an empty `old`, Go inserts `new`
before every rune and at the end. -/
def goReplaceAll (s old new : String) : String :=
  match old.data with
  | [] => String.mk (new.data ++ s.data.flatMap (fun c => c :: new.data))
  | _ => String.mk (replCore s.data.length s.data old.data new.data)

/-- `bytes.Split(p, []byte("\n"))`: split on each newline, keeping empty
segments (a trailing newline yields a final empty segment). -/
def splitNl : List Char → List (List Char)
  | [] => [[]]
  | c :: rest =>
    if c = '\n' then [] :: splitNl rest
    else
      match splitNl rest with
      | s :: ss => (c :: s) :: ss
      | [] => [[c]]

/-! ## JSON values (`encoding/json` as used via `map[string]interface{}`) -/

/-- A decoded JSON value.  Objects are association lists; the parser below
builds them key-sorted with duplicates overwritten, which models Go's
`map[string]interface{}` target (unordered, last duplicate wins) composed
with `json.Marshal`'s sorted-key output. -/
inductive JValue where
  | null
  | bool (b : Bool)
  | num (m : Int) (e : Int)
  | str (s : String)
  | arr (elems : List JValue)
  | obj (fields : List (String × JValue))

/-- Go map fields of a decoded JSON object. -/
abbrev JObj := List (String × JValue)

/-- Read a key from a decoded object (Go map indexing). -/
def objGet : JObj → String → Option JValue
  | [], _ => none
  | (k', v') :: rest, k => if k' = k then some v' else objGet rest k

/-- Go map assignment `m[k] = v`: overwrite in place if the key is present,
append otherwise (the position of a fresh key is unobservable because
marshalling sorts; the rewriter only ever overwrites existing keys). -/
def objSet : JObj → String → JValue → JObj
  | [], k, v => [(k, v)]
  | (k', v') :: rest, k, v =>
    if k' = k then (k', v) :: rest else (k', v') :: objSet rest k v

/-- Lexicographic order on character lists, by code point (for valid UTF-8
this agrees with Go's byte-wise `sort.Strings` order). -/
def listCharLtB : List Char → List Char → Bool
  | _, [] => false
  | [], _ :: _ => true
  | x :: xs, y :: ys =>
    if x.toNat = y.toNat then listCharLtB xs ys else x.toNat < y.toNat

/-- Go's string sort order. -/
def strLtB (a b : String) : Bool := listCharLtB a.data b.data

/-- Sorted insert with overwrite, used when decoding an object's members into
the Go map: later duplicate keys overwrite earlier ones, and the map's
marshalled order is byte-lexicographic by key. -/
def objInsert : JObj → String → JValue → JObj
  | [], k, v => [(k, v)]
  | (k', v') :: rest, k, v =>
    if k = k' then (k, v) :: rest
    else if strLtB k k' then (k, v) :: (k', v') :: rest
    else (k', v') :: objInsert rest k v

/-! ### Parsing (`json.Unmarshal`) -/

/-- JSON structural whitespace. -/
def jWs (c : Char) : Bool := c = ' ' || c = '\t' || c = '\n' || c = '\r'

/-- Skip JSON whitespace. -/
def skipWs : List Char → List Char
  | [] => []
  | c :: rest => if jWs c then skipWs rest else c :: rest

/-- Hexadecimal digit value. -/
def hexVal (c : Char) : Option Nat :=
  if '0' ≤ c ∧ c ≤ '9' then some (c.toNat - 48)
  else if 'a' ≤ c ∧ c ≤ 'f' then some (c.toNat - 87)
  else if 'A' ≤ c ∧ c ≤ 'F' then some (c.toNat - 55)
  else none

/-- Four hex digits of a `\uXXXX` escape. -/
def hex4 : List Char → Option (Nat × List Char)
  | a :: b :: c :: d :: r =>
    match hexVal a, hexVal b, hexVal c, hexVal d with
    | some x, some y, some z, some w => some ((((x * 16 + y) * 16 + z) * 16 + w), r)
    | _, _, _, _ => none
  | _ => none

/-- Simple (single-character) string escapes. -/
def escMap (c : Char) : Option Char :=
  if c = '"' then some '"'
  else if c = '\\' then some '\\'
  else if c = '/' then some '/'
  else if c = 'b' then some (Char.ofNat 0x08)
  else if c = 'f' then some (Char.ofNat 0x0C)
  else if c = 'n' then some '\n'
  else if c = 'r' then some '\r'
  else if c = 't' then some '\t'
  else none

/-- Parse the contents of a JSON string after the opening quote, returning
the decoded characters and the remainder after the closing quote.  Raw
control characters are rejected, `\uXXXX` escapes are decoded with Go's
UTF-16 surrogate handling (lone surrogates become U+FFFD). -/
def pStr : Nat → List Char → Option (List Char × List Char)
  | 0, _ => none
  | fuel + 1, s =>
    match s with
    | [] => none
    | c :: rest =>
      if c = '"' then some ([], rest)
      else if c = '\\' then
        match rest with
        | [] => none
        | e :: r2 =>
          if e = 'u' then
            match hex4 r2 with
            | none => none
            | some (code, r3) =>
              if 0xD800 ≤ code ∧ code ≤ 0xDBFF then
                match r3 with
                | '\\' :: 'u' :: r4 =>
                  match hex4 r4 with
                  | some (code2, r5) =>
                    if 0xDC00 ≤ code2 ∧ code2 ≤ 0xDFFF then
                      match pStr fuel r5 with
                      | some (cs, rr) =>
                        some (Char.ofNat (0x10000 + (code - 0xD800) * 0x400 + (code2 - 0xDC00)) :: cs, rr)
                      | none => none
                    else
                      match pStr fuel r3 with
                      | some (cs, rr) => some (Char.ofNat 0xFFFD :: cs, rr)
                      | none => none
                  | none =>
                    match pStr fuel r3 with
                    | some (cs, rr) => some (Char.ofNat 0xFFFD :: cs, rr)
                    | none => none
                | _ =>
                  match pStr fuel r3 with
                  | some (cs, rr) => some (Char.ofNat 0xFFFD :: cs, rr)
                  | none => none
              else if 0xDC00 ≤ code ∧ code ≤ 0xDFFF then
                match pStr fuel r3 with
                | some (cs, rr) => some (Char.ofNat 0xFFFD :: cs, rr)
                | none => none
              else
                match pStr fuel r3 with
                | some (cs, rr) => some (Char.ofNat code :: cs, rr)
                | none => none
          else
            match escMap e with
            | some ec =>
              match pStr fuel r2 with
              | some (cs, rr) => some (ec :: cs, rr)
              | none => none
            | none => none
      else if c.toNat < 0x20 then none
      else
        match pStr fuel rest with
        | some (cs, rr) => some (c :: cs, rr)
        | none => none

/-- Take a maximal run of decimal digits. -/
def pDigits : List Char → List Char × List Char
  | [] => ([], [])
  | c :: rest =>
    if c.isDigit then
      match pDigits rest with
      | (ds, r) => (c :: ds, r)
    else ([], c :: rest)

/-- Decimal digits to a natural number. -/
def digitsToNat (ds : List Char) : Nat :=
  ds.foldl (fun a c => a * 10 + (c.toNat - 48)) 0

/-- Strip factors of ten from the mantissa into the exponent. -/
def stripZeros : Nat → Nat → Int → Nat × Int
  | 0, m, e => (m, e)
  | fuel + 1, m, e =>
    if m % 10 = 0 && m ≠ 0 then stripZeros fuel (m / 10) (e + 1) else (m, e)

/-- Combine integer digits, fraction digits and an exponent into the
normalized `(mantissa, exponent)` pair. -/
def mkNum (ds fds : List Char) (ex : Int) : Int × Int :=
  match stripZeros (ds.length + fds.length) (digitsToNat (ds ++ fds)) (ex - fds.length) with
  | (m, e) => if m = 0 then (0, 0) else ((m : Int), e)

/-- Parse an optional exponent part and finish the number. -/
def pNumExp (ds fds : List Char) (r : List Char) : Option ((Int × Int) × List Char) :=
  match r with
  | [] => some (mkNum ds fds 0, [])
  | c :: r1 =>
    if c = 'e' || c = 'E' then
      match r1 with
      | '-' :: r2 =>
        match pDigits r2 with
        | ([], _) => none
        | (eds, r3) => some (mkNum ds fds (-(digitsToNat eds : Int)), r3)
      | '+' :: r2 =>
        match pDigits r2 with
        | ([], _) => none
        | (eds, r3) => some (mkNum ds fds (digitsToNat eds : Int), r3)
      | _ =>
        match pDigits r1 with
        | ([], _) => none
        | (eds, r3) => some (mkNum ds fds (digitsToNat eds : Int), r3)
    else some (mkNum ds fds 0, c :: r1)

/-- Parse an unsigned JSON number (JSON forbids leading zeros). -/
def pNumCore (s : List Char) : Option ((Int × Int) × List Char) :=
  match pDigits s with
  | ([], _) => none
  | (ds, r1) =>
    if 1 < ds.length && ds.head? = some '0' then none
    else
      match r1 with
      | '.' :: r2 =>
        match pDigits r2 with
        | ([], _) => none
        | (fds, r3) => pNumExp ds fds r3
      | _ => pNumExp ds [] r1

/-- Parse a JSON number with optional sign. -/
def pNum (s : List Char) : Option ((Int × Int) × List Char) :=
  match s with
  | '-' :: s1 =>
    match pNumCore s1 with
    | some ((m, e), r) => some ((-m, e), r)
    | none => none
  | _ => pNumCore s

mutual

/-- Parse one JSON value (leading whitespace allowed), returning the value
and the unconsumed remainder.  The fuel argument only bounds recursion depth;
`2 * length + 2` is always sufficient. -/
def pVal : Nat → List Char → Option (JValue × List Char)
  | 0, _ => none
  | fuel + 1, s =>
    match skipWs s with
    | [] => none
    | c :: rest =>
      if c = 'n' then
        match rest with
        | 'u' :: 'l' :: 'l' :: r => some (.null, r)
        | _ => none
      else if c = 't' then
        match rest with
        | 'r' :: 'u' :: 'e' :: r => some (.bool true, r)
        | _ => none
      else if c = 'f' then
        match rest with
        | 'a' :: 'l' :: 's' :: 'e' :: r => some (.bool false, r)
        | _ => none
      else if c = '"' then
        match pStr fuel rest with
        | some (cs, r) => some (.str (String.mk cs), r)
        | none => none
      else if c = '[' then
        if (skipWs rest).head? = some ']' then some (.arr [], (skipWs rest).tail)
        else
          match pArrElems fuel rest with
          | some (vs, r) => some (.arr vs, r)
          | none => none
      else if c = lbraceChar then
        if (skipWs rest).head? = some rbraceChar then some (.obj [], (skipWs rest).tail)
        else
          match pObjMems fuel rest with
          | some (kvs, r) =>
            some (.obj (kvs.foldl (fun acc kv => objInsert acc kv.1 kv.2) []), r)
          | none => none
      else
        match pNum (c :: rest) with
        | some ((m, e), r) => some (.num m e, r)
        | none => none

/-- Parse the comma-separated elements of a non-empty array up to `]`. -/
def pArrElems : Nat → List Char → Option (List JValue × List Char)
  | 0, _ => none
  | fuel + 1, s =>
    match pVal fuel s with
    | some (v, r) =>
      match skipWs r with
      | ',' :: r2 =>
        match pArrElems fuel r2 with
        | some (vs, r3) => some (v :: vs, r3)
        | none => none
      | ']' :: r2 => some ([v], r2)
      | _ => none
    | none => none

/-- Parse the comma-separated members of a non-empty object up to `}`,
in textual order. -/
def pObjMems : Nat → List Char → Option (List (String × JValue) × List Char)
  | 0, _ => none
  | fuel + 1, s =>
    match skipWs s with
    | '"' :: r1 =>
      match pStr fuel r1 with
      | some (kcs, r2) =>
        match skipWs r2 with
        | ':' :: r3 =>
          match pVal fuel r3 with
          | some (v, r4) =>
            match skipWs r4 with
            | ',' :: r5 =>
              match pObjMems fuel r5 with
              | some (kvs, r6) => some ((String.mk kcs, v) :: kvs, r6)
              | none => none
            | r5 =>
              if r5.head? = some rbraceChar then some ([(String.mk kcs, v)], r5.tail)
              else none
          | none => none
        | _ => none
      | none => none
    | _ => none

end

/-- Parse a complete JSON document: one value with only whitespace around it
(`json.Unmarshal` rejects trailing garbage). -/
def jparse (s : String) : Option JValue :=
  match pVal (2 * s.length + 2) s.data with
  | some (v, r) => if (skipWs r).isEmpty then some v else none
  | none => none

/-- `json.Unmarshal(body, &m)` for `var m map[string]interface{}`: succeeds
on a JSON object (yielding its fields) and on `null` (leaving the map `nil`,
modelled as `none`); every other document is an unmarshalling error. -/
def goUnmarshalMap (s : String) : Option (Option JObj) :=
  match jparse s with
  | some (.obj fs) => some (some fs)
  | some .null => some none
  | _ => none

/-! ### Marshalling (`json.Marshal`) -/

/-- Lowercase hexadecimal digit. -/
def hexDigitChar (n : Nat) : Char :=
  if n < 10 then Char.ofNat (48 + n) else Char.ofNat (87 + n)

/-- Four lowercase hex digits of a code point. -/
def hex4Digits (n : Nat) : List Char :=
  [hexDigitChar (n / 4096 % 16), hexDigitChar (n / 256 % 16),
   hexDigitChar (n / 16 % 16), hexDigitChar (n % 16)]

/-- `json.Marshal` string escaping: quote, backslash, `\n`/`\r`/`\t`, other
control characters as `\u00xx`, and (HTML-safe mode, the `json.Marshal`
default) `<`, `>`, `&`, U+2028, U+2029 as `\uXXXX`. -/
def escChar (c : Char) : List Char :=
  if c = '"' then ['\\', '"']
  else if c = '\\' then ['\\', '\\']
  else if c = '\n' then ['\\', 'n']
  else if c = '\r' then ['\\', 'r']
  else if c = '\t' then ['\\', 't']
  else if c = '<' || c = '>' || c = '&' || c.toNat < 0x20 ||
          c = Char.ofNat 0x2028 || c = Char.ofNat 0x2029 then
    '\\' :: 'u' :: hex4Digits c.toNat
  else [c]

/-- Escape a whole string body. -/
def escString (l : List Char) : List Char := l.flatMap escChar

/-- Decimal rendering of `m * 10 ^ e`, as Go prints the float64 of a decimal
literal in the plain (non-exponential) range. -/
def numStr (m e : Int) : List Char :=
  if m = 0 then ['0']
  else
    (if m < 0 then ['-'] else []) ++
    (if 0 ≤ e then (Nat.repr m.natAbs).data ++ List.replicate e.toNat '0'
     else
       if (-e).toNat < (Nat.repr m.natAbs).data.length then
         (Nat.repr m.natAbs).data.take ((Nat.repr m.natAbs).data.length - (-e).toNat) ++
         '.' :: (Nat.repr m.natAbs).data.drop ((Nat.repr m.natAbs).data.length - (-e).toNat)
       else
         '0' :: '.' :: List.replicate ((-e).toNat - (Nat.repr m.natAbs).data.length) '0' ++
         (Nat.repr m.natAbs).data)

mutual

/-- `json.Marshal` of a decoded value: compact output, object fields in the
list's order (the parser keeps them key-sorted, matching Go's sorted-key
marshalling of maps). -/
def mVal : JValue → List Char
  | .null => "null".data
  | .bool true => "true".data
  | .bool false => "false".data
  | .num m e => numStr m e
  | .str s => '"' :: escString s.data ++ ['"']
  | .arr vs => '[' :: mArr vs ++ [']']
  | .obj fs => lbraceChar :: mObj fs ++ [rbraceChar]

/-- Comma-separated marshalled array elements. -/
def mArr : List JValue → List Char
  | [] => []
  | [v] => mVal v
  | v :: vs => mVal v ++ ',' :: mArr vs

/-- Comma-separated marshalled object members. -/
def mObj : List (String × JValue) → List Char
  | [] => []
  | [(k, v)] => '"' :: escString k.data ++ '"' :: ':' :: mVal v
  | (k, v) :: kvs => ('"' :: escString k.data ++ '"' :: ':' :: mVal v) ++ ',' :: mObj kvs

end

/-- `json.Marshal` of the Go map a request body was decoded into
(a `nil` map marshals to `null`). -/
def jmarshalMap : Option JObj → String
  | none => "null"
  | some fs => String.mk (mVal (.obj fs))

/-! ## The prompt rewriter (`modifyRequestBody`) -/

/-- Log events emitted by `modifyRequestBody` (the log file is a side
channel; we record which entries are produced, with their payloads). -/
inductive LogEvent where
  | reqBodyParseError
  | originalPrompt (s : String)
  | rewrittenPrompt (s : String)
deriving DecidableEq

/-- The keyword loop body: `for keyword, replacement := range
config.PromptModifications { content = strings.ReplaceAll(content, keyword,
replacement) }`.  `config.PromptModifications` is a Go `map[string]string`,
so the *iteration sequence* `mods` is an unspecified permutation of the
configured table; it is taken here as an explicit parameter. -/
def applyMods (mods : List (String × String)) (content : String) : String :=
  mods.foldl (fun acc kr => goReplaceAll acc kr.1 kr.2) content

/-- Per-message step of the rewriter: when the decoded message is an object
whose `content` is a string, log the original prompt, rewrite it, log the
rewritten prompt only when it changed, and store it back; every other
message is untouched and unlogged. -/
def rewriteMsgLog (mods : List (String × String)) (v : JValue) : JValue × List LogEvent :=
  match v with
  | .obj m =>
    match objGet m "content" with
    | some (.str content) =>
      (.obj (objSet m "content" (.str (applyMods mods content))),
       .originalPrompt content ::
         (if applyMods mods content ≠ content then
            [.rewrittenPrompt (applyMods mods content)]
          else []))
    | _ => (v, [])
  | _ => (v, [])

/-- The value part of `rewriteMsgLog`. -/
def rewriteMsg (mods : List (String × String)) (v : JValue) : JValue :=
  (rewriteMsgLog mods v).1

/-- The decoded-map part of `modifyRequestBody`: when `request["messages"]`
is an array, map the per-message rewrite over it (in place) and store the
array back; otherwise the decoded request is left as is. -/
def modifyReqMap (mods : List (String × String)) (req : Option JObj) :
    Option JObj × List LogEvent :=
  match req with
  | none => (none, [])
  | some fs =>
    match objGet fs "messages" with
    | some (.arr ms) =>
      (some (objSet fs "messages" (.arr (ms.map (rewriteMsg mods)))),
       (ms.map (rewriteMsgLog mods)).flatMap Prod.snd)
    | _ => (some fs, [])

/-- `modifyRequestBody`: unmarshal the body into a Go map; on error log and
return the body unchanged; otherwise rewrite the messages and re-marshal.
(`json.Marshal` cannot fail on a value produced by `json.Unmarshal`, so the
source's marshal-error branch is unreachable and not modelled.) -/
def modifyRequestBody (mods : List (String × String)) (body : String) :
    String × List LogEvent :=
  match goUnmarshalMap body with
  | none => (body, [.reqBodyParseError])
  | some req =>
    (jmarshalMap (modifyReqMap mods req).1, (modifyReqMap mods req).2)

/-- The string contents of the decoded request's messages, in order: exactly
the strings the keyword loop runs on. -/
def msgContents (req : Option JObj) : List String :=
  match req with
  | none => []
  | some fs =>
    match objGet fs "messages" with
    | some (.arr ms) =>
      ms.filterMap fun v =>
        match v with
        | .obj m =>
          match objGet m "content" with
          | some (.str c) => some c
          | _ => none
        | _ => none
    | _ => []

/-- Does the Go code's `msg.(map[string]interface{})` /
`message["content"].(string)` pair of type assertions succeed on `v`? -/
def hasStrContent : JValue → Bool
  | .obj m =>
    match objGet m "content" with
    | some (.str _) => true
    | _ => false
  | _ => false

/-! ## The streaming response writer (`streamResponseWriter.Write`) -/

/-- Log events emitted by the streaming writer's per-line pass. -/
inductive StreamLog where
  | done
  | chunk (payload : String)
  | parseError
deriving DecidableEq

/-- The sentinel `[DONE]`. -/
def doneChars : List Char := "[DONE]".data

/-- The SSE framing marker the writer strips: `data: ` (colon + one space). -/
def dataMarker : List Char := "data: ".data

/-- `bytes.TrimPrefix(line, []byte("data: "))`: drop the marker if the line
starts with it, otherwise return the line unchanged. -/
def dropDataMarker (l : List Char) : List Char :=
  if dataMarker.isPrefixOf l then l.drop dataMarker.length else l

/-- One iteration of the writer's loop over the split lines (the source's
local bindings are inlined): trim whitespace; skip empty lines; strip the
`data: ` marker; on the sentinel log completion and continue without a JSON
parse; otherwise `json.Unmarshal` into a map, logging the chunk on success
and a parse error on failure. -/
def processLine (line : List Char) : List StreamLog :=
  if (goTrimSpace line).isEmpty then []
  else if dropDataMarker (goTrimSpace line) = doneChars then [.done]
  else
    match goUnmarshalMap (String.mk (dropDataMarker (goTrimSpace line))) with
    | some _ => [.chunk (String.mk (dropDataMarker (goTrimSpace line)))]
    | none => [.parseError]

/-- The logging pass over a whole written slice: split on newlines and
process each line in order. -/
def processChunkLines (lines : List (List Char)) : List StreamLog :=
  lines.flatMap processLine

/-- `streamResponseWriter.Write p`: run the logging pass over `p`, then
forward `p` itself — the very slice received — to the wrapped
`gin.ResponseWriter` in the same call.  `clientSoFar` is everything the
underlying writer has already sent; the result pairs the log events with the
underlying writer's new contents. -/
def streamWriterWrite (clientSoFar : String) (p : String) : List StreamLog × String :=
  (processChunkLines (splitNl p.data), clientSoFar ++ p)

/-! ## The buffered relay (`handleNonStreamRequest` / `responseBodyWriter`) -/

/-- Client-visible state of the connection under the gin writer: the bytes
sent, the status line, and the `Content-Type` header. -/
structure ClientConn where
  bytesOut : String
  status : Nat
  headerCT : String
deriving DecidableEq

/-- `responseBodyWriter`: wraps the gin writer, capturing the body in a
buffer. -/
structure RBW where
  conn : ClientConn
  body : String
  statusCode : Nat
deriving DecidableEq

/-- `responseBodyWriter.Write`: append to the capture buffer and write
through to the client. -/
def rbwWrite (w : RBW) (b : String) : RBW :=
  { w with body := w.body ++ b,
           conn := { w.conn with bytesOut := w.conn.bytesOut ++ b } }

/-- `responseBodyWriter.WriteHeader`: record the status code and forward it;
the gin writer sends it to the client on the first body write. -/
def rbwWriteHeader (w : RBW) (code : Nat) : RBW :=
  { w with statusCode := code, conn := { w.conn with status := code } }

/-- `proxy.ServeHTTP` on the wrapper for a buffered response: the reverse
proxy copies the upstream headers (in particular `Content-Type`) into the
response header map, writes the upstream status code, then streams the
upstream body through `responseBodyWriter.Write` chunk by chunk. -/
def proxyServeHTTP (w : RBW) (upStatus : Nat) (upCT : String) (chunks : List String) : RBW :=
  chunks.foldl rbwWrite
    (rbwWriteHeader { w with conn := { w.conn with headerCT := upCT } } upStatus)

/-- `c.Data(code, contentType, data)` after the proxy has already written
the response: gin's writer ignores the repeated `WriteHeader` (headers were
already sent with the first write) and the repeated `Content-Type` set is
value-identical, but the data bytes are written to the client again. -/
def cData (w : RBW) (_code : Nat) (_contentType : String) (data : String) : RBW :=
  { w with conn := { w.conn with bytesOut := w.conn.bytesOut ++ data } }

/-- `handleNonStreamRequest`: relay the upstream response through the
capturing writer, then emit `c.Data` with the recorded status, the header
map's `Content-Type` and the captured body.  (The audit-log lines and the
assistant-reply extraction are pure log side channels with no client-visible
effect and are not modelled here.) -/
def handleNonStreamRequest (upStatus : Nat) (upCT : String) (chunks : List String) : RBW :=
  cData (proxyServeHTTP ⟨⟨"", 0, ""⟩, "", 0⟩ upStatus upCT chunks)
    (proxyServeHTTP ⟨⟨"", 0, ""⟩, "", 0⟩ upStatus upCT chunks).statusCode
    (proxyServeHTTP ⟨⟨"", 0, ""⟩, "", 0⟩ upStatus upCT chunks).conn.headerCT
    (proxyServeHTTP ⟨⟨"", 0, ""⟩, "", 0⟩ upStatus upCT chunks).body

/-! ## `handleProxy`: Authorization override and relay selection -/

/-- `c.GetHeader` returns the empty string for an absent header. -/
def getHeader (h : Option String) : String := h.getD ""

/-- The director's `Authorization` override: a non-empty inbound value is
forwarded verbatim; otherwise `"Bearer " + config.OpenAIAPIKey` is set. -/
def directorAuth (inboundAuth : Option String) (apiKey : String) : String :=
  if getHeader inboundAuth ≠ "" then getHeader inboundAuth
  else "Bearer " ++ apiKey

/-- The two relays `handleProxy` dispatches to. -/
inductive Relay where
  | streaming
  | buffered
deriving DecidableEq

/-- `isStreamRequest := strings.Contains(path, "/stream") ||
c.Request.Header.Get("Accept") == "text/event-stream"`. -/
def isStreamRequest (path accept : String) : Bool :=
  strContains path "/stream" || (accept == "text/event-stream")

/-- The dispatch at the end of `handleProxy`: the classification is computed
once and selects the relay. -/
def selectRelay (path accept : String) : Relay :=
  if isStreamRequest path accept then .streaming else .buffered

/-! ## Helper lemmas -/

theorem hasSubstr_nil_pat (s : List Char) : hasSubstr s [] = true := by
  cases s <;> simp [hasSubstr, List.isPrefixOf]

theorem replCore_of_not_hasSubstr (fuel : Nat) (s old new : List Char)
    (h : hasSubstr s old = false) : replCore fuel s old new = s := by
  induction fuel generalizing s with
  | zero => rfl
  | succ f ih =>
    cases s with
    | nil => rfl
    | cons c rest =>
      have h' := h
      simp only [hasSubstr, Bool.or_eq_false_iff] at h'
      simp [replCore, h'.1, ih rest h'.2]

theorem goReplaceAll_of_not_contains (s old new : String)
    (h : strContains s old = false) : goReplaceAll s old new = s := by
  unfold goReplaceAll
  unfold strContains at h
  cases hd : old.data with
  | nil =>
    rw [hd] at h
    rw [hasSubstr_nil_pat s.data] at h
    exact absurd h (by simp)
  | cons a as =>
    rw [hd] at h
    simp only
    rw [replCore_of_not_hasSubstr _ _ _ _ h]

theorem applyMods_of_not_contains :
    ∀ (mods : List (String × String)) (c : String),
      (∀ kr ∈ mods, strContains c kr.1 = false) → applyMods mods c = c := by
  intro mods
  induction mods with
  | nil => intro c _; rfl
  | cons kr rest ih =>
    intro c h
    have h1 : strContains c kr.1 = false := h kr (List.mem_cons_self kr rest)
    have hstep : applyMods (kr :: rest) c = applyMods rest (goReplaceAll c kr.1 kr.2) := rfl
    rw [hstep, goReplaceAll_of_not_contains c kr.1 kr.2 h1]
    exact ih c fun x hx => h x (List.mem_cons_of_mem kr hx)

theorem objSet_of_objGet_eq :
    ∀ (fs : JObj) (k : String) (v : JValue), objGet fs k = some v → objSet fs k v = fs := by
  intro fs
  induction fs with
  | nil => intro k v h; simp [objGet] at h
  | cons kv rest ih =>
    intro k v h
    obtain ⟨k', v'⟩ := kv
    by_cases hk : k' = k
    · subst hk
      simp [objGet] at h
      simp [objSet, h]
    · simp only [objGet, if_neg hk] at h
      simp [objSet, hk, ih k v h]

theorem objGet_objSet_ne :
    ∀ (fs : JObj) (k k2 : String) (v : JValue), k2 ≠ k →
      objGet (objSet fs k v) k2 = objGet fs k2 := by
  intro fs
  induction fs with
  | nil =>
    intro k k2 v h
    have hne : ¬k = k2 := fun hh => h hh.symm
    simp [objSet, objGet, hne]
  | cons kv rest ih =>
    intro k k2 v h
    obtain ⟨k', v'⟩ := kv
    by_cases hk : k' = k
    · subst hk
      by_cases hk2 : k' = k2
      · exact absurd hk2.symm h
      · simp [objSet, objGet, hk2]
    · by_cases hk2 : k' = k2
      · subst hk2
        simp [objSet, objGet, h]
      · simp [objSet, objGet, hk, hk2, ih k k2 v h]

theorem rewriteMsg_of_not_strContent (mods : List (String × String)) (v : JValue)
    (h : hasStrContent v = false) : rewriteMsg mods v = v := by
  cases v with
  | obj m =>
    cases hc : objGet m "content" with
    | none => simp [rewriteMsg, rewriteMsgLog, hc]
    | some w =>
      cases w with
      | str c => simp [hasStrContent, hc] at h
      | null => simp [rewriteMsg, rewriteMsgLog, hc]
      | bool b => simp [rewriteMsg, rewriteMsgLog, hc]
      | num m2 e2 => simp [rewriteMsg, rewriteMsgLog, hc]
      | arr es => simp [rewriteMsg, rewriteMsgLog, hc]
      | obj m2 => simp [rewriteMsg, rewriteMsgLog, hc]
  | null => rfl
  | bool b => rfl
  | num m2 e2 => rfl
  | str s => rfl
  | arr es => rfl

theorem rewriteMsg_obj_content (mods : List (String × String)) (m : JObj) (c : String)
    (h : objGet m "content" = some (.str c)) :
    rewriteMsg mods (.obj m) = .obj (objSet m "content" (.str (applyMods mods c))) := by
  simp [rewriteMsg, rewriteMsgLog, h]

theorem mem_msgContents (fs : JObj) (ms : List JValue) (m : JObj) (c : String)
    (h1 : objGet fs "messages" = some (.arr ms)) (h2 : JValue.obj m ∈ ms)
    (h3 : objGet m "content" = some (.str c)) : c ∈ msgContents (some fs) := by
  simp only [msgContents, h1]
  exact List.mem_filterMap.2 ⟨.obj m, h2, by simp [h3]⟩

theorem list_map_self {α : Type} (f : α → α) :
    ∀ (l : List α), (∀ v ∈ l, f v = v) → l.map f = l := by
  intro l
  induction l with
  | nil => intro _; rfl
  | cons x xs ih =>
    intro h
    simp only [List.map_cons, h x (List.mem_cons_self x xs),
      ih fun v hv => h v (List.mem_cons_of_mem x hv)]

theorem modifyReqMap_fst_self (mods : List (String × String)) (req : Option JObj)
    (h : ∀ c ∈ msgContents req, ∀ kr ∈ mods, strContains c kr.1 = false) :
    (modifyReqMap mods req).1 = req := by
  cases req with
  | none => rfl
  | some fs =>
    cases hm : objGet fs "messages" with
    | none => simp [modifyReqMap, hm]
    | some v =>
      cases v with
      | arr ms =>
        have hmap : ms.map (rewriteMsg mods) = ms := by
          apply list_map_self
          intro v hv
          cases v with
          | obj m =>
            cases hc : objGet m "content" with
            | none => simp [rewriteMsg, rewriteMsgLog, hc]
            | some w =>
              cases w with
              | str c =>
                have hcm : c ∈ msgContents (some fs) := mem_msgContents fs ms m c hm hv hc
                rw [rewriteMsg_obj_content mods m c hc,
                  applyMods_of_not_contains mods c (h c hcm),
                  objSet_of_objGet_eq m "content" (.str c) hc]
              | null => simp [rewriteMsg, rewriteMsgLog, hc]
              | bool b => simp [rewriteMsg, rewriteMsgLog, hc]
              | num m2 e2 => simp [rewriteMsg, rewriteMsgLog, hc]
              | arr es => simp [rewriteMsg, rewriteMsgLog, hc]
              | obj m2 => simp [rewriteMsg, rewriteMsgLog, hc]
          | null => rfl
          | bool b => rfl
          | num m2 e2 => rfl
          | str s => rfl
          | arr es => rfl
        simp [modifyReqMap, hm, hmap, objSet_of_objGet_eq fs "messages" (.arr ms) hm]
      | null => simp [modifyReqMap, hm]
      | bool b => simp [modifyReqMap, hm]
      | num m2 e2 => simp [modifyReqMap, hm]
      | str s => simp [modifyReqMap, hm]
      | obj m2 => simp [modifyReqMap, hm]

theorem trim_ne_nil_of_sentinel (line : List Char)
    (h : dropDataMarker (goTrimSpace line) = doneChars) :
    (goTrimSpace line).isEmpty = false := by
  cases hg : goTrimSpace line with
  | nil =>
    rw [hg] at h
    exact absurd h (by decide)
  | cons c rest => rfl

/-! ## Claims -/

/-- C1: for every byte slice written by the upstream during a streaming
relay, `streamResponseWriter.Write` forwards exactly those bytes, unmodified
and in the same `Write` call, to the underlying client writer — regardless
of how the individual lines of the slice fare in the per-line logging pass
(JSON or not, sentinel or not, empty or not): the underlying writer's
contents after the call are its previous contents followed by exactly `p`. -/
theorem c1_stream_write_forwards_bytes (clientSoFar p : String) :
    (streamWriterWrite clientSoFar p).2 = clientSoFar ++ p := rfl

/-- C2 (failing input): for the non-streaming relay with upstream status
200, `Content-Type: application/json` and body `"ok"`, the client receives
the upstream status and `Content-Type`, and the buffer captures `"ok"` —
but the bytes sent to the client are `"okok"`: the body is written once by
the write-through capture inside `proxy.ServeHTTP` and a second time by the
final `c.Data` call, contradicting delivery "exactly once". -/
theorem c2_buffered_relay_writes_body_twice :
    handleNonStreamRequest 200 "application/json" ["ok"] =
      ⟨⟨"okok", 200, "application/json"⟩, "ok", 200⟩
    ∧ ("okok" : String) ≠ "ok" := by
  exact ⟨rfl, by decide⟩

/-- C6: the director forwards a non-empty inbound `Authorization` header
verbatim, and substitutes `"Bearer " ++` the configured key when the header
is absent or empty. -/
theorem c6_authorization_override (inboundAuth : Option String) (apiKey : String) :
    (∀ s, inboundAuth = some s → s ≠ "" → directorAuth inboundAuth apiKey = s)
    ∧ ((inboundAuth = none ∨ inboundAuth = some "") →
        directorAuth inboundAuth apiKey = "Bearer " ++ apiKey) := by
  constructor
  · intro s hs hne
    subst hs
    simp [directorAuth, getHeader, hne]
  · intro hcase
    cases hcase with
    | inl hnone => subst hnone; simp [directorAuth, getHeader]
    | inr hempty => subst hempty; simp [directorAuth, getHeader]

/-- C6 witness: a concrete non-empty inbound header is forwarded verbatim;
a concrete absent header yields the bearer-prefixed configured key. -/
theorem c6_authorization_override_witness :
    directorAuth (some "Bearer sk-user") "sk-default" = "Bearer sk-user"
    ∧ directorAuth none "sk-default" = "Bearer " ++ "sk-default" :=
  ⟨(c6_authorization_override (some "Bearer sk-user") "sk-default").1
      "Bearer sk-user" rfl (by decide),
   (c6_authorization_override none "sk-default").2 (Or.inl rfl)⟩

/-- C9: a request is dispatched to the streaming relay if and only if its
path contains `"/stream"` or its `Accept` header value is
`text/event-stream`, and to the buffered relay exactly otherwise; the
classification `isStreamRequest` is computed once and drives the selection
deterministically. -/
theorem c9_stream_classification (path accept : String) :
    (selectRelay path accept = .streaming ↔
      (strContains path "/stream" = true ∨ accept = "text/event-stream"))
    ∧ (selectRelay path accept = .buffered ↔
      ¬(strContains path "/stream" = true ∨ accept = "text/event-stream")) := by
  unfold selectRelay isStreamRequest
  by_cases h1 : strContains path "/stream" = true
  · simp [h1]
  · by_cases h2 : accept = "text/event-stream"
    · simp [h1, h2]
    · have h2' : (accept == "text/event-stream") = false := by
        simpa using h2
      simp [h1, h2', h2]

/-- C3 (counterexample): the keyword loop iterates a Go
`map[string]string` with `range`, whose iteration order is unspecified.  The
two lists below are permutations of each other — two legal iteration
sequences of the same two-entry substitution table — yet the keyword loop
rewrites the content `"a"` to `"c"` under one sequence and to `"b"` under
the other.  Hence the rewritten content is not a deterministic function of
the content string and the table, refuting the claim's fixed-order,
deterministic reading. -/
theorem c3_cex_map_iteration_order_observable :
    List.Perm [(("a" : String), ("b" : String)), ("b", "c")] [("b", "c"), ("a", "b")]
    ∧ applyMods [("a", "b"), ("b", "c")] "a" = "c"
    ∧ applyMods [("b", "c"), ("a", "b")] "a" = "b"
    ∧ ("c" : String) ≠ "b" :=
  ⟨List.Perm.swap ("b", "c") ("a", "b") [], rfl, rfl, by decide⟩

/-- C3 (amended): for every message whose decoded `content` is a string, the
rewriter applies every (keyword, replacement) pair of the map's iteration
sequence exactly once, each occurrence replaced by non-overlapping
left-to-right scanning (`strings.ReplaceAll`), folded first-to-last over
that sequence; the rewritten content is a deterministic function of the
content string and the iteration sequence — but the sequence is an
unspecified permutation of the configured table, not a fixed table order. -/
theorem c3_each_pair_applied_in_iteration_sequence
    (mods : List (String × String)) (fs : JObj) (ms : List JValue) (i : Nat)
    (m : JObj) (c : String)
    (h1 : objGet fs "messages" = some (.arr ms))
    (h2 : ms[i]? = some (.obj m))
    (h3 : objGet m "content" = some (.str c)) :
    (modifyReqMap mods (some fs)).1 =
      some (objSet fs "messages" (.arr (ms.map (rewriteMsg mods))))
    ∧ (ms.map (rewriteMsg mods))[i]? =
        some (.obj (objSet m "content" (.str (applyMods mods c))))
    ∧ applyMods mods c = mods.foldl (fun acc kr => goReplaceAll acc kr.1 kr.2) c := by
  refine ⟨by simp [modifyReqMap, h1], ?_, rfl⟩
  rw [List.getElem?_map, h2]
  simp [rewriteMsg_obj_content mods m c h3]

/-- C3 witness: the amended theorem applied to a concrete one-message body
and the one-pair iteration sequence `BADWORD → nice`. -/
theorem c3_each_pair_applied_witness :
    ([JValue.obj [("content", .str "a BADWORD"), ("role", .str "user")]].map
        (rewriteMsg [("BADWORD", "nice")]))[0]? =
      some (.obj (objSet [("content", JValue.str "a BADWORD"), ("role", JValue.str "user")]
        "content" (.str (applyMods [("BADWORD", "nice")] "a BADWORD")))) :=
  (c3_each_pair_applied_in_iteration_sequence [("BADWORD", "nice")]
    [("messages", .arr [.obj [("content", .str "a BADWORD"), ("role", .str "user")]])]
    [.obj [("content", .str "a BADWORD"), ("role", .str "user")]] 0
    [("content", .str "a BADWORD"), ("role", .str "user")] "a BADWORD"
    rfl rfl rfl).2.1

/-- C4 (counterexample): a chat-shaped body containing no configured keyword
(its `messages` array is empty, so no content string exists at all) is *not*
forwarded byte-identically: `modifyRequestBody` re-marshals the decoded map,
dropping the whitespace after the colon. -/
theorem c4_cex_reserialization_not_byte_identical :
    goUnmarshalMap "\x7b\"messages\": []\x7d" = some (some [("messages", JValue.arr [])])
    ∧ msgContents (some [("messages", JValue.arr [])]) = []
    ∧ (modifyRequestBody [("BADWORD", "nice")] "\x7b\"messages\": []\x7d").1 =
        "\x7b\"messages\":[]\x7d"
    ∧ ("\x7b\"messages\": []\x7d" : String) ≠ "\x7b\"messages\":[]\x7d" :=
  ⟨rfl, rfl, rfl, by decide⟩

/-- C4 (amended): for every body that unmarshals into a Go map and whose
message contents contain no configured keyword, the forwarded body is the
canonical re-serialization `json.Marshal` of the decoded value, with every
message untouched — so it is byte-identical to the original exactly when the
original already equals its canonical serialization (compact, key-sorted,
escape-normalized), not in general. -/
theorem c4_no_keyword_reserialization
    (mods : List (String × String)) (body : String) (req : Option JObj)
    (h1 : goUnmarshalMap body = some req)
    (h2 : ∀ c ∈ msgContents req, ∀ kr ∈ mods, strContains c kr.1 = false) :
    (modifyRequestBody mods body).1 = jmarshalMap req
    ∧ (body = jmarshalMap req → (modifyRequestBody mods body).1 = body) := by
  have hfix : (modifyReqMap mods req).1 = req := modifyReqMap_fst_self mods req h2
  refine ⟨by simp [modifyRequestBody, h1, hfix], fun hb => ?_⟩
  simp [modifyRequestBody, h1, hfix, ← hb]

/-- C4 witness: a concrete keyword-free body already in canonical form is
forwarded byte-identically. -/
theorem c4_no_keyword_reserialization_witness :
    (modifyRequestBody [("BADWORD", "nice")]
        "\x7b\"messages\":[\x7b\"content\":\"hi\",\"role\":\"user\"\x7d]\x7d").1 =
      "\x7b\"messages\":[\x7b\"content\":\"hi\",\"role\":\"user\"\x7d]\x7d" :=
  (c4_no_keyword_reserialization [("BADWORD", "nice")]
    "\x7b\"messages\":[\x7b\"content\":\"hi\",\"role\":\"user\"\x7d]\x7d"
    (some [("messages", .arr [.obj [("content", .str "hi"), ("role", .str "user")]])])
    (by rfl) (by decide)).2 (by rfl)

/-- C5 (counterexample): a body that is valid JSON but not chat-shaped (a
JSON object with no `messages` array) falls inside the claim's "malformed
(not valid JSON, or not chat-shaped)" scope, yet the bytes forwarded
upstream are *not* the original: the decoded object is re-marshalled,
dropping the whitespace after the colon. -/
theorem c5_cex_non_chat_shaped_reserialized :
    goUnmarshalMap "\x7b\"a\": 1\x7d" = some (some [("a", JValue.num 1 0)])
    ∧ objGet [("a", JValue.num 1 0)] "messages" = none
    ∧ (modifyRequestBody [("BADWORD", "nice")] "\x7b\"a\": 1\x7d").1 = "\x7b\"a\":1\x7d"
    ∧ ("\x7b\"a\": 1\x7d" : String) ≠ "\x7b\"a\":1\x7d" :=
  ⟨rfl, rfl, rfl, by decide⟩

/-- C5 (amended): for every body on which `json.Unmarshal` into the Go map
fails (invalid JSON, or a valid document whose top level is not an object or
`null`), `modifyRequestBody` returns exactly the original bytes together
with only a parse-error log entry, and in particular no rewritten-prompt log
entry; the failure is non-fatal (the function still returns a body to
forward).  Valid JSON objects that are merely not chat-shaped are instead
re-serialized (see the counterexample). -/
theorem c5_unmarshal_failure_forwards_unchanged
    (mods : List (String × String)) (body : String)
    (h : goUnmarshalMap body = none) :
    modifyRequestBody mods body = (body, [.reqBodyParseError])
    ∧ ∀ s, LogEvent.rewrittenPrompt s ∉ (modifyRequestBody mods body).2 := by
  refine ⟨by simp [modifyRequestBody, h], fun s => ?_⟩
  simp [modifyRequestBody, h]

/-- C5 witness: a concrete non-JSON body is forwarded unchanged with only
the parse-error log entry. -/
theorem c5_unmarshal_failure_witness :
    modifyRequestBody [("BADWORD", "nice")] "not json" =
      ("not json", [.reqBodyParseError]) :=
  (c5_unmarshal_failure_forwards_unchanged [("BADWORD", "nice")] "not json" rfl).1

/-- C7: for every chat-shaped decoded request, the rewrite replaces only the
`messages` entry (every other key of the request object reads the same);
the new `messages` array is the element-wise image of the old one, so its
length and element order are preserved; any message on which the
object/string-content type assertions fail is left untouched; and for a
message object with string content, only its `content` key is replaced —
every other key of the message object reads the same. -/
theorem c7_rewrite_frame_preservation
    (mods : List (String × String)) (fs : JObj) (ms : List JValue)
    (h : objGet fs "messages" = some (.arr ms)) :
    (modifyReqMap mods (some fs)).1 =
      some (objSet fs "messages" (.arr (ms.map (rewriteMsg mods))))
    ∧ (∀ k, k ≠ "messages" →
        objGet (objSet fs "messages" (.arr (ms.map (rewriteMsg mods)))) k = objGet fs k)
    ∧ (ms.map (rewriteMsg mods)).length = ms.length
    ∧ (∀ i : Nat, (ms.map (rewriteMsg mods))[i]? = (ms[i]?).map (rewriteMsg mods))
    ∧ (∀ v, hasStrContent v = false → rewriteMsg mods v = v)
    ∧ (∀ m c, objGet m "content" = some (.str c) →
        rewriteMsg mods (.obj m) = .obj (objSet m "content" (.str (applyMods mods c)))
        ∧ ∀ k, k ≠ "content" →
            objGet (objSet m "content" (.str (applyMods mods c))) k = objGet m k) := by
  refine ⟨by simp [modifyReqMap, h], fun k hk => objGet_objSet_ne fs "messages" k _ hk,
    List.length_map ms _, fun i => by simp, fun v hv =>
      rewriteMsg_of_not_strContent mods v hv, fun m c hc =>
      ⟨rewriteMsg_obj_content mods m c hc, fun k hk =>
        objGet_objSet_ne m "content" k _ hk⟩⟩

/-- C7 witness: a concrete two-message request (one message with string
content next to one raw string element): the `model` key of the request is
preserved, array length and order are preserved, the raw element is
untouched, and the message's `role` key is preserved while only `content`
is rewritten. -/
theorem c7_rewrite_frame_preservation_witness :
    objGet (objSet [("messages", JValue.arr [.obj [("content", .str "xa"), ("role", .str "user")], .str "raw"]),
        ("model", JValue.str "gpt")] "messages"
        (.arr ([JValue.obj [("content", .str "xa"), ("role", .str "user")], .str "raw"].map
          (rewriteMsg [("a", "b")])))) "model" =
      objGet [("messages", JValue.arr [.obj [("content", .str "xa"), ("role", .str "user")], .str "raw"]),
        ("model", JValue.str "gpt")] "model"
    ∧ ([JValue.obj [("content", .str "xa"), ("role", .str "user")], .str "raw"].map
        (rewriteMsg [("a", "b")])).length = 2
    ∧ rewriteMsg [("a", "b")] (.str "raw") = .str "raw"
    ∧ rewriteMsg [("a", "b")] (.obj [("content", .str "xa"), ("role", .str "user")]) =
        .obj (objSet [("content", JValue.str "xa"), ("role", JValue.str "user")] "content"
          (.str (applyMods [("a", "b")] "xa")))
    ∧ objGet (objSet [("content", JValue.str "xa"), ("role", JValue.str "user")] "content"
          (.str (applyMods [("a", "b")] "xa"))) "role" =
        objGet [("content", JValue.str "xa"), ("role", JValue.str "user")] "role" := by
  have h := c7_rewrite_frame_preservation [("a", "b")]
    [("messages", JValue.arr [.obj [("content", .str "xa"), ("role", .str "user")], .str "raw"]),
      ("model", JValue.str "gpt")]
    [JValue.obj [("content", .str "xa"), ("role", .str "user")], .str "raw"] rfl
  exact ⟨h.2.1 "model" (by decide), h.2.2.1, h.2.2.2.2.1 (.str "raw") rfl,
    (h.2.2.2.2.2 [("content", .str "xa"), ("role", .str "user")] "xa" rfl).1,
    (h.2.2.2.2.2 [("content", .str "xa"), ("role", .str "user")] "xa" rfl).2 "role" (by decide)⟩

/-- C8: for every streamed line whose trimmed payload, after stripping the
`data: ` marker, equals the sentinel `[DONE]`, the per-line pass emits
exactly the stream-completion log event — no parse-error log and no chunk
log, i.e. no JSON parse is attempted for that line — and the pass over the
surrounding lines continues unaffected on both sides. -/
theorem c8_sentinel_logs_completion_no_parse
    (line : List Char) (h : dropDataMarker (goTrimSpace line) = doneChars) :
    processLine line = [.done]
    ∧ ∀ pre post : List (List Char),
        processChunkLines (pre ++ line :: post) =
          processChunkLines pre ++ .done :: processChunkLines post := by
  have hne : (goTrimSpace line).isEmpty = false := trim_ne_nil_of_sentinel line h
  have hpl : processLine line = [.done] := by
    simp [processLine, hne, h]
  refine ⟨hpl, fun pre post => ?_⟩
  simp [processChunkLines, hpl]

/-- C8 witness: the concrete sentinel frame `data: [DONE]` produces exactly
the stream-completion log event. -/
theorem c8_sentinel_witness : processLine "data: [DONE]".data = [.done] :=
  (c8_sentinel_logs_completion_no_parse "data: [DONE]".data (by rfl)).1

/-- C10: sentinel recognition is exact-marker-sensitive: a line logs stream
completion if and only if, after trimming surrounding whitespace and
stripping one occurrence of the exact `data: ` marker (colon + one space),
the remainder equals `[DONE]`; a bare `[DONE]` line is recognized, while
`data:[DONE]` (no space) is not recognized and instead produces a JSON
parse-error log. -/
theorem c10_sentinel_exact_marker_sensitivity (line : List Char) :
    (StreamLog.done ∈ processLine line ↔ dropDataMarker (goTrimSpace line) = doneChars)
    ∧ processLine doneChars = [.done]
    ∧ processLine ("data:[DONE]".data) = [.parseError] := by
  refine ⟨⟨fun hmem => ?_, fun h => ?_⟩, rfl, rfl⟩
  · by_cases h0 : (goTrimSpace line).isEmpty
    · simp [processLine, h0] at hmem
    · by_cases h1 : dropDataMarker (goTrimSpace line) = doneChars
      · exact h1
      · exfalso
        revert hmem
        simp only [processLine, h0, h1, if_false, Bool.false_eq_true, reduceIte]
        cases hm : goUnmarshalMap (String.mk (dropDataMarker (goTrimSpace line))) <;> simp
  · have hne : (goTrimSpace line).isEmpty = false := trim_ne_nil_of_sentinel line h
    simp [processLine, hne, h]
